import Mathlib

/-!
Shallow embedding of the response-extraction pipeline of `src/lambda/invoke.py`.

The embedding models, faithfully to the Python source:
  * `extract_sql_query`  — the regex-based SQL fragment extractor
    (pattern `(SELECT.*?)(?=\n\s*(?:Returned information|$))` with
    `re.DOTALL | re.IGNORECASE`, result stripped);
  * `extract_source_list_from_kb` — the knowledge-base reference scan;
  * `source_link` — citation resolution, deduplication and rendering;
  * `get_agent_response` — the event-stream interpreter;
  * `lambda_handler` — the orchestrating handler (from the point where the
    upstream streaming response is in hand; transport and body parsing are
    external collaborators).

Python runtime failures (KeyError, IndexError, UnicodeDecodeError,
UnboundLocalError, ValueError from tuple unpacking) are modelled with an
explicit `Except PyErr` result; Python `None` vs `""` vs list values are kept
distinct via `PyVal`.
-/

deriving instance DecidableEq for Except

/-- Python errors that the modelled code can raise. -/
inductive PyErr where
  | keyError (k : String)
  | indexError
  | unicodeDecodeError
  | unboundLocal (v : String)
  | valueError (msg : String)
  | jsonDecodeError
deriving DecidableEq, Repr

/-- Raw bytes, abstracted by the only operation the source performs on them:
UTF-8 decoding. `utf8 s` stands for the encoding of `s`; `invalid` for any
byte string that is not valid UTF-8. -/
inductive Bytes where
  | utf8 (s : String)
  | invalid
deriving DecidableEq, Repr

/-- `bytes.decode("utf-8")` as a partial function. -/
def decodeUtf8 : Bytes → Option String
  | .utf8 s => some s
  | .invalid => none

/- ## The SQL fragment extractor (`extract_sql_query`)

Pattern: `(SELECT.*?)(?=\n\s*(?:Returned information|$))`, searched with
`re.DOTALL | re.IGNORECASE`; on a match, group 1 is returned `.strip()`ped.
The model spells out the regex semantics on `List Char`:
leftmost start position, lazy (shortest) capture, and a lookahead that
requires a literal newline, then optional whitespace, then either the
literal `Returned information` or the `$` anchor (end of text, or the
position just before a terminal newline). -/

/-- ASCII lower-casing, as used by `re.IGNORECASE` on the ASCII letters that
occur in the pattern literals. -/
def lowerChar (c : Char) : Char :=
  if 'A' ≤ c && c ≤ 'Z' then Char.ofNat (c.toNat + 32) else c

/-- Python's `\s` on the ASCII range: space, tab, newline, carriage return,
vertical tab, form feed. -/
def pyIsSpace (c : Char) : Bool :=
  c == ' ' || c == '\t' || c == '\n' || c == '\r' || c == '\x0b' || c == '\x0c'

/-- Case-insensitive "the second list starts with the first". -/
def startsWithCI : List Char → List Char → Bool
  | [], _ => true
  | _ :: _, [] => false
  | p :: ps, c :: cs => (lowerChar p == lowerChar c) && startsWithCI ps cs

/-- The literal `SELECT` of the pattern (lower-cased for CI comparison). -/
def selectLit : List Char := ['s', 'e', 'l', 'e', 'c', 't']

/-- The literal `Returned information` of the pattern (lower-cased). -/
def returnedInfoLit : List Char :=
  ['r', 'e', 't', 'u', 'r', 'n', 'e', 'd', ' ',
   'i', 'n', 'f', 'o', 'r', 'm', 'a', 't', 'i', 'o', 'n']

/-- The `$` anchor (no `re.MULTILINE`): it matches at the very end of the
text, or just before a newline that is the final character. Argument is the
remaining suffix. -/
def endAnchor : List Char → Bool
  | [] => true
  | ['\n'] => true
  | _ => false

/-- After the mandatory `\n` of the lookahead: `\s*(?:Returned information|$)`.
True iff some (possibly empty) whitespace prefix of the suffix is followed by
the literal `Returned information` (case-insensitively) or by the `$` anchor. -/
def afterNl : List Char → Bool
  | [] => startsWithCI returnedInfoLit [] || endAnchor []
  | c :: rest =>
    startsWithCI returnedInfoLit (c :: rest) || endAnchor (c :: rest) ||
      (pyIsSpace c && afterNl rest)

/-- The whole lookahead `(?=\n\s*(?:Returned information|$))` at the given
suffix position. -/
def termHere : List Char → Bool
  | '\n' :: rest => afterNl rest
  | _ => false

/-- Lazy `.*?` followed by the lookahead: the shortest prefix of the suffix
after which the lookahead holds, or `none` when no position of the suffix
satisfies the lookahead. -/
def findCapture : List Char → Option (List Char)
  | [] => if termHere [] then some [] else none
  | c :: rest =>
    if termHere (c :: rest) then some []
    else (findCapture rest).map (fun u => c :: u)

/-- `re.search` of the full pattern: try each start position left to right;
a position matches when `SELECT` occurs there (case-insensitively) and a
lookahead position exists at or beyond its end; group 1 is the original text
from the start position up to that (shortest) lookahead position. -/
def extract_sql_query_core : List Char → Option (List Char)
  | [] => none
  | c :: rest =>
    if startsWithCI selectLit (c :: rest) then
      match findCapture (List.drop 6 (c :: rest)) with
      | some cap => some (List.take 6 (c :: rest) ++ cap)
      | none => extract_sql_query_core rest
    else extract_sql_query_core rest

/-- Python `str.lstrip()` (ASCII whitespace). -/
def pyDropSpace : List Char → List Char
  | [] => []
  | c :: rest => if pyIsSpace c then pyDropSpace rest else c :: rest

/-- Python `str.strip()` (ASCII whitespace on both ends). -/
def pyStrip (cs : List Char) : List Char :=
  (pyDropSpace (pyDropSpace cs).reverse).reverse

/-- `extract_sql_query` of the source: regex search, then
`match.group(1).strip()` on success, `None` on failure. -/
def extract_sql_query (s : String) : Option String :=
  (extract_sql_query_core s.toList).map (fun cs => String.mk (pyStrip cs))

/- ## Trace / event data model

Mirrors the nested dictionaries the source walks:
`event["trace"]["trace"]["orchestrationTrace"]["observation"]` with an
observation carrying `type`, optionally `actionGroupInvocationOutput.text`
and optionally `knowledgeBaseLookupOutput.retrievedReferences` (each with
`location.s3Location.uri`). Optional fields model keys that may be absent. -/

/-- One retrieved reference; `uri` stands for `location.s3Location.uri`. -/
structure RetrievedRef where
  uri : String
deriving DecidableEq, Repr

/-- An `observation` dictionary. `type` is its mandatory discriminator;
the two payload keys may each be present or absent. -/
structure Observation where
  type : String
  actionGroupInvocationOutput : Option String
  knowledgeBaseLookupOutput : Option (List RetrievedRef)
deriving DecidableEq, Repr

/-- An `orchestrationTrace` dictionary: may or may not carry `observation`. -/
structure OrchestrationTrace where
  observation : Option Observation
deriving DecidableEq, Repr

/-- The inner `trace` dictionary: may or may not carry `orchestrationTrace`. -/
structure InnerTrace where
  orchestrationTrace : Option OrchestrationTrace
deriving DecidableEq, Repr

/-- The value of `event["trace"]` (which itself nests a `trace` key). -/
structure TraceEvent where
  trace : InnerTrace
deriving DecidableEq, Repr

/-- One event of the completion stream: it may carry a `trace` key and/or a
`chunk` key (whose payload is the raw `bytes`). -/
structure Event where
  trace : Option TraceEvent
  chunk : Option Bytes
deriving DecidableEq, Repr

/-- The upstream streaming response: the `completion` key may be absent;
`reprStr` is the printable representation interpolated into the diagnostic
string when it is. -/
structure AgentResponse where
  completion : Option (List Event)
  reprStr : String
deriving DecidableEq, Repr

/-- The Python value held by `source_file_list`: a string, a list of URIs, or
Python `None`. -/
inductive PyVal where
  | str (s : String)
  | list (l : List String)
  | pyNone
deriving DecidableEq, Repr

/-- What `get_agent_response` returns on its two `return` statements: a bare
diagnostic string, or the pair `(chunk_text, source_file_list)`. -/
inductive GetAgentResult where
  | errStr (s : String)
  | pair (answer : String) (src : PyVal)
deriving DecidableEq, Repr

/- ## `extract_source_list_from_kb` -/

/-- The KB scan of the source: walk the collected traces in order; at the
first trace whose `orchestrationTrace.observation` carries
`knowledgeBaseLookupOutput`, return the list of its references' URIs (in
reference order) and stop. Falling off the loop returns Python `None`,
modelled as `none`. -/
def extract_source_list_from_kb : List TraceEvent → Option (List String)
  | [] => none
  | t :: rest =>
    match t.trace.orchestrationTrace with
    | some ot =>
      match ot.observation with
      | some obs =>
        match obs.knowledgeBaseLookupOutput with
        | some refs => some (refs.map RetrievedRef.uri)
        | none => extract_source_list_from_kb rest
      | none => extract_source_list_from_kb rest
    | none => extract_source_list_from_kb rest

/- ## `get_agent_response` -/

/-- Body of the first loop of `get_agent_response`: collect `event["trace"]`
values in order and keep the UTF-8 decoding of the most recent
`event["chunk"]["bytes"]` (raising `UnicodeDecodeError` on invalid bytes). -/
def scanStep (acc : List TraceEvent × Option String) (ev : Event) :
    Except PyErr (List TraceEvent × Option String) :=
  let tl := match ev.trace with
    | some t => acc.1 ++ [t]
    | none => acc.1
  match ev.chunk with
  | some b =>
    match decodeUtf8 b with
    | some s => .ok (tl, some s)
    | none => .error .unicodeDecodeError
  | none => .ok (tl, acc.2)

/-- The first loop of `get_agent_response` over the completion events. -/
def scanEvents (events : List Event) : Except PyErr (List TraceEvent × Option String) :=
  events.foldlM scanStep ([], none)

/-- Body of the second loop of `get_agent_response`: every orchestration
observation of type `ACTION_GROUP` overwrites `sql_query_from_llm` with the
extraction from its `actionGroupInvocationOutput.text` (a `KeyError` is
raised when that key is absent). -/
def sqlStep (sql : Option String) (t : TraceEvent) : Except PyErr (Option String) :=
  match t.trace.orchestrationTrace with
  | some ot =>
    match ot.observation with
    | some obs =>
      if obs.type == "ACTION_GROUP" then
        match obs.actionGroupInvocationOutput with
        | some text => .ok (extract_sql_query text)
        | none => .error (.keyError "actionGroupInvocationOutput")
      else .ok sql
    | none => .ok sql
  | none => .ok sql

/-- The second loop of `get_agent_response`, starting from
`sql_query_from_llm = None`. -/
def sqlLoop (trace_list : List TraceEvent) : Except PyErr (Option String) :=
  trace_list.foldlM sqlStep none

/-- Python truthiness of `sql_query_from_llm` (`None` and `""` are falsy). -/
def pyTruthyStr : Option String → Bool
  | none => false
  | some s => !(s == "")

/-- The `else` branch of `get_agent_response`: the KB scan wrapped in
`try/except` (the modelled scan is total, so the handler that maps an
exception to `""` is vacuous here), with a Python-`None` result kept as
`PyVal.pyNone`. -/
def kbFallback (trace_list : List TraceEvent) : PyVal :=
  match extract_source_list_from_kb trace_list with
  | some l => .list l
  | none => .pyNone

/-- `get_agent_response` of the source. Missing `completion` returns the bare
diagnostic string; otherwise the stream is scanned, the SQL loop runs, the
provenance value is chosen (a truthy extraction wins, else the KB scan), and
the pair `(chunk_text, source_file_list)` is returned — raising
`UnboundLocalError` when no chunk event ever assigned `chunk_text`. -/
def get_agent_response (response : AgentResponse) : Except PyErr GetAgentResult :=
  match response.completion with
  | none => .ok (.errStr ("No completion found in response: " ++ response.reprStr))
  | some events => do
    let (trace_list, chunkText) ← scanEvents events
    let sql ← sqlLoop trace_list
    let source_file_list : PyVal :=
      match sql with
      | some q => if q == "" then kbFallback trace_list else .str q
      | none => kbFallback trace_list
    match chunkText with
    | some a => .ok (.pair a source_file_list)
    | none => .error (.unboundLocal "chunk_text")

/- ## `source_link` and its object-store collaborator -/

/-- A stored citation object, abstracted by the operations performed on it:
UTF-8 decode (`invalidUtf8` fails it), then `json.loads` (`notJson` fails
it), then field lookups on the resulting JSON object (`record`, an
association list of string fields). -/
inductive StoredObject where
  | invalidUtf8
  | notJson
  | record (fields : List (String × String))
deriving DecidableEq, Repr

/-- The object store: `(bucket, object path) ↦ stored object`. One read per
resolution, no caching, modelled as a pure lookup function. -/
def Store : Type := String → String → StoredObject

/-- Split a character list at the first occurrence of the (non-empty)
separator: `some (before, after)` with the separator removed, or `none` when
the separator does not occur. -/
def breakOnSep (sep : List Char) : List Char → Option (List Char × List Char)
  | [] => none
  | c :: rest =>
    if sep.isPrefixOf (c :: rest) then some ([], List.drop sep.length (c :: rest))
    else (breakOnSep sep rest).map (fun p => (c :: p.1, p.2))

/-- Python `s.split(sep)[1]` for a non-empty separator: the segment between
the first occurrence of `sep` and the next one (or the end of the string),
`none` (an `IndexError`) when `sep` does not occur at all. -/
def pySplitIdx1 (sep : List Char) (cs : List Char) : Option (List Char) :=
  (breakOnSep sep cs).map (fun p =>
    match breakOnSep sep p.2 with
    | some q => q.1
    | none => p.2)

/-- Python `input_source.split("//")[1]` followed by
`.partition("/")[0]` / `.partition("/")[2]`: everything after the first
`//` is split at its first `/` into bucket and object path. `IndexError`
when the key contains no `//`. -/
def parseUri (u : String) : Except PyErr (String × String) :=
  match pySplitIdx1 ['/', '/'] u.toList with
  | none => .error .indexError
  | some s =>
    match breakOnSep ['/'] s with
    | some p => .ok (String.mk p.1, String.mk p.2)
    | none => .ok (String.mk s, "")

/-- One iteration of the first loop of `source_link`: parse the key, fetch
the object, decode and JSON-parse it, read `Url` then `Topic`. A
`UnicodeDecodeError` is caught by the source's `except` and yields `none`
(the key is skipped); a JSON parse failure or a missing field propagates. -/
def resolveKey (store : Store) (u : String) :
    Except PyErr (Option (String × String)) := do
  let (bucket, obj) ← parseUri u
  match store bucket obj with
  | .invalidUtf8 => .ok none
  | .notJson => .error .jsonDecodeError
  | .record fields =>
    match fields.lookup "Url" with
    | none => .error (.keyError "Url")
    | some url =>
      match fields.lookup "Topic" with
      | none => .error (.keyError "Topic")
      | some topic => .ok (some (topic, url))

/-- The first loop of `source_link`: resolve each key in order, appending the
`(title, link)` pairs of the successful ones. -/
def collectPairs (store : Store) : List String → Except PyErr (List (String × String))
  | [] => .ok []
  | u :: rest => do
    let p ← resolveKey store u
    let ps ← collectPairs store rest
    match p with
    | some pair => .ok (pair :: ps)
    | none => .ok ps

/-- `list(OrderedDict.fromkeys(...))`: scan left to right, appending a pair
only when it has not been seen before. -/
def orderedDictFromKeys (l : List (String × String)) : List (String × String) :=
  l.foldl (fun acc x => if x ∈ acc then acc else acc ++ [x]) []

/-- One rendered line `"{i}. [{title}]({link})\n\n"`. -/
def refLine (i : Nat) (title link : String) : String :=
  s! "{i}. [{title}]({link})\n\n"

/-- The rendering loop of `source_link`: `enumerate(..., start=1)` over the
deduplicated pairs, accumulating the rendered lines into a string. -/
def renderLoop (l : List (String × String)) : String :=
  (l.foldl (fun (acc : String × Nat) p =>
    (acc.1 ++ refLine acc.2 p.1 p.2, acc.2 + 1)) ("", 1)).1

/-- `source_link` of the source: resolve all keys, deduplicate preserving
first-seen order, render the numbered reference list. -/
def source_link (store : Store) (input_source_list : List String) :
    Except PyErr String := do
  let pairs ← collectPairs store input_source_list
  .ok (renderLoop (orderedDictFromKeys pairs))

/- ## `lambda_handler` -/

/-- The serialized response body `{"answer": ..., "source": ...}`; `source`
is `none` when the Python value is `None` (JSON `null`). -/
structure LambdaOutput where
  answer : String
  source : Option String
deriving DecidableEq, Repr

/-- `lambda_handler` from the point where the upstream streaming response is
in hand. `response, source_file_list = get_agent_response(...)` is Python
tuple unpacking: the pair case binds the two components, while the bare
diagnostic-string case iterates the string's characters — succeeding (with
two single-character strings) only when the string has length exactly two,
and raising `ValueError` otherwise. Then a list provenance is routed through
`source_link`, and any other value is passed through verbatim. -/
def lambda_handler (store : Store) (streaming_response : AgentResponse) :
    Except PyErr LambdaOutput := do
  let r ← get_agent_response streaming_response
  match r with
  | .errStr s =>
    match s.toList with
    | [c1, c2] => .ok { answer := String.mk [c1], source := some (String.mk [c2]) }
    | _ => .error (.valueError "values to unpack")
  | .pair answer src =>
    match src with
    | .list l => do
      let reference_str ← source_link store l
      .ok { answer := answer, source := some reference_str }
    | .str s => .ok { answer := answer, source := some s }
    | .pyNone => .ok { answer := answer, source := none }

/- ## Concrete stream and store builders (used by witnesses) -/

/-- A trace event whose observation is an `ACTION_GROUP` with the given
action-group output text. -/
def agTraceEvent (text : String) : TraceEvent :=
  ⟨⟨some ⟨some ⟨"ACTION_GROUP", some text, none⟩⟩⟩⟩

/-- A trace event whose observation is a knowledge-base lookup with the given
retrieved-reference URIs. -/
def kbTraceEvent (uris : List String) : TraceEvent :=
  ⟨⟨some ⟨some ⟨"KNOWLEDGE_BASE", none, some (uris.map RetrievedRef.mk)⟩⟩⟩⟩

/-- A stream event carrying only a chunk with the UTF-8 encoding of `s`. -/
def chunkEvent (s : String) : Event := ⟨none, some (.utf8 s)⟩

/-- A stream event carrying only a trace. -/
def traceEvent (t : TraceEvent) : Event := ⟨some t, none⟩

/-- A concrete object store used by witnesses: two well-formed citation
records, one non-UTF-8 object, and one record missing `Url`/`Topic`. -/
def storeA : Store := fun bucket obj =>
  if bucket == "b1" && obj == "k1" then .record [("Url", "L1"), ("Topic", "A")]
  else if bucket == "b1" && obj == "k2" then .record [("Url", "L2"), ("Topic", "B")]
  else if bucket == "b1" && obj == "nofields" then .record [("Other", "x")]
  else .invalidUtf8

/- ## Spec-side (declarative) companions

These definitions restate, in the spec's vocabulary, what the loops of the
source compute; the theorems below relate the source-derived functions to
them. -/

/-- The chunk payloads of a stream, in order. -/
def chunksOf (events : List Event) : List Bytes := events.filterMap Event.chunk

/-- The collected trace records of a stream, in order. -/
def tracesOf (events : List Event) : List TraceEvent := events.filterMap Event.trace

/-- Classify a collected trace: `some o` when it carries an orchestration
observation of type `ACTION_GROUP` (`o` being its, possibly absent,
action-group output text), `none` otherwise. -/
def agText? (t : TraceEvent) : Option (Option String) :=
  match t.trace.orchestrationTrace with
  | some ot =>
    match ot.observation with
    | some obs =>
      if obs.type == "ACTION_GROUP" then some obs.actionGroupInvocationOutput else none
    | none => none
  | none => none

/-- The action-group output texts present in a trace list, in order. -/
def agTexts (tl : List TraceEvent) : List String :=
  tl.filterMap (fun t => (agText? t).bind id)

/-- The knowledge-base lookup payload of a collected trace, when present. -/
def kbLookup (t : TraceEvent) : Option (List RetrievedRef) :=
  match t.trace.orchestrationTrace with
  | some ot =>
    match ot.observation with
    | some obs => obs.knowledgeBaseLookupOutput
    | none => none
  | none => none

/-- The final value of `sql_query_from_llm`: the extraction from the LAST
action-group output text, or `None` when no `ACTION_GROUP` observation was
collected. -/
def sqlOf (tl : List TraceEvent) : Option String :=
  match (agTexts tl).getLast? with
  | some text => extract_sql_query text
  | none => none

/-- The provenance value `source_file_list` computed by `get_agent_response`
from the collected traces. -/
def pickSource (tl : List TraceEvent) : PyVal :=
  match sqlOf tl with
  | some q => if q == "" then kbFallback tl else .str q
  | none => kbFallback tl

/-- Stable deduplication, spec-side: scan left to right, keep an element only
on its first occurrence (`seen` holds the elements already kept). -/
def dedupFirstAux (seen : List (String × String)) :
    List (String × String) → List (String × String)
  | [] => []
  | x :: xs =>
    if x ∈ seen then dedupFirstAux seen xs
    else x :: dedupFirstAux (seen ++ [x]) xs

/-- Stable deduplication by (title, link) equality, keeping first
occurrences in first-seen order. -/
def dedupFirst (l : List (String × String)) : List (String × String) :=
  dedupFirstAux [] l

/-- Spec-side rendering: for index `i` starting at the given value, the line
`"{i}. [{title}]({link})\n\n"`, concatenated. -/
def renderFrom (i : Nat) : List (String × String) → String
  | [] => ""
  | p :: rest => refLine i p.1 p.2 ++ renderFrom (i + 1) rest

/-- The suffix of the text beginning at the first case-insensitive
occurrence of `SELECT`, when one exists. -/
def firstSelect : List Char → Option (List Char)
  | [] => none
  | c :: rest =>
    if startsWithCI selectLit (c :: rest) then some (c :: rest)
    else firstSelect rest

/-- The least index at which the lookahead holds, when one exists. -/
def firstTermIdx : List Char → Option Nat
  | [] => if termHere [] then some 0 else none
  | c :: rest =>
    if termHere (c :: rest) then some 0
    else (firstTermIdx rest).map (fun j => j + 1)

/- ## Support lemmas: the event-stream scan -/

@[simp] lemma exceptBind_ok {ε α β : Type} (a : α) (f : α → Except ε β) :
    (Except.ok a : Except ε α) >>= f = f a := rfl

@[simp] lemma exceptBind_error {ε α β : Type} (e : ε) (f : α → Except ε β) :
    (Except.error e : Except ε α) >>= f = .error e := rfl

@[simp] lemma exceptPure {ε α : Type} (a : α) :
    (pure a : Except ε α) = .ok a := rfl

lemma lastDecode_cons_some {b : Bytes} {s : String} {l : List Bytes}
    (hb : decodeUtf8 b = some s) (hl : ∀ x ∈ l, decodeUtf8 x ≠ none)
    (c0 : Option String) :
    Option.or ((b :: l).getLast?.bind decodeUtf8) c0 =
      Option.or (l.getLast?.bind decodeUtf8) (some s) := by
  cases l with
  | nil => simp [hb]
  | cons x l' =>
    rw [List.getLast?_cons_cons]
    have hne : (x :: l').getLast?.isSome := by simp
    obtain ⟨a, ha⟩ := Option.isSome_iff_exists.mp hne
    have hmem : a ∈ x :: l' := List.mem_of_getLast?_eq_some ha
    obtain ⟨sa, hsa⟩ := Option.ne_none_iff_exists'.mp (hl a hmem)
    simp [ha, hsa]

lemma chunksOf_cons (e : Event) (rest : List Event) :
    chunksOf (e :: rest) =
      (match e.chunk with | some b => [b] | none => []) ++ chunksOf rest := by
  cases h : e.chunk <;> simp [chunksOf, List.filterMap_cons, h]

lemma tracesOf_cons (e : Event) (rest : List Event) :
    tracesOf (e :: rest) =
      (match e.trace with | some t => [t] | none => []) ++ tracesOf rest := by
  cases h : e.trace <;> simp [tracesOf, List.filterMap_cons, h]

lemma scanFold (events : List Event) :
    ∀ (tl0 : List TraceEvent) (c0 : Option String),
      (∀ b ∈ chunksOf events, decodeUtf8 b ≠ none) →
      events.foldlM scanStep (tl0, c0) =
        .ok (tl0 ++ tracesOf events,
             Option.or ((chunksOf events).getLast?.bind decodeUtf8) c0) := by
  induction events with
  | nil => intro tl0 c0 _; simp [tracesOf, chunksOf]
  | cons e rest ih =>
    intro tl0 c0 hall
    have hallRest : ∀ b ∈ chunksOf rest, decodeUtf8 b ≠ none := by
      intro b hbmem
      apply hall
      rw [chunksOf_cons]
      exact List.mem_append_right _ hbmem
    rw [List.foldlM_cons]
    cases hch : e.chunk with
    | none =>
      have hstep : scanStep (tl0, c0) e =
          .ok (tl0 ++ (match e.trace with | some t => [t] | none => []), c0) := by
        cases ht : e.trace <;> simp [scanStep, hch, ht]
      rw [hstep, exceptBind_ok, ih _ _ hallRest]
      cases ht : e.trace <;>
        simp [tracesOf, chunksOf, List.filterMap_cons, hch, ht, List.append_assoc]
    | some b =>
      have hbmem : b ∈ chunksOf (e :: rest) := by
        simp [chunksOf, List.filterMap_cons, hch]
      obtain ⟨s, hs⟩ := Option.ne_none_iff_exists'.mp (hall b hbmem)
      have hstep : scanStep (tl0, c0) e =
          .ok (tl0 ++ (match e.trace with | some t => [t] | none => []), some s) := by
        cases ht : e.trace <;> simp [scanStep, hch, ht, hs]
      rw [hstep, exceptBind_ok, ih _ _ hallRest]
      have hor : Option.or ((chunksOf (e :: rest)).getLast?.bind decodeUtf8) c0 =
          Option.or ((chunksOf rest).getLast?.bind decodeUtf8) (some s) := by
        have : chunksOf (e :: rest) = b :: chunksOf rest := by
          simp [chunksOf, List.filterMap_cons, hch]
        rw [this]
        exact lastDecode_cons_some hs hallRest c0
      rw [hor]
      cases ht : e.trace <;>
        simp [tracesOf, chunksOf, List.filterMap_cons, hch, ht, List.append_assoc]

lemma scanEvents_eq (events : List Event)
    (hall : ∀ b ∈ chunksOf events, decodeUtf8 b ≠ none) :
    scanEvents events =
      .ok (tracesOf events, (chunksOf events).getLast?.bind decodeUtf8) := by
  rw [scanEvents, scanFold events [] none hall]
  simp [Option.or_none]

/- ## Support lemmas: the SQL loop and the KB scan -/

lemma sqlStep_of_agText_none {t : TraceEvent} (h : agText? t = none)
    (sql : Option String) : sqlStep sql t = .ok sql := by
  obtain ⟨⟨orch⟩⟩ := t
  cases orch with
  | none => rfl
  | some ot =>
    obtain ⟨obs⟩ := ot
    cases obs with
    | none => rfl
    | some o =>
      simp only [agText?] at h
      cases hty : (o.type == "ACTION_GROUP") with
      | false => simp [sqlStep, hty]
      | true => rw [hty] at h; simp at h

lemma sqlStep_of_agText_some {t : TraceEvent} {text : String}
    (h : agText? t = some (some text)) (sql : Option String) :
    sqlStep sql t = .ok (extract_sql_query text) := by
  obtain ⟨⟨orch⟩⟩ := t
  cases orch with
  | none => simp [agText?] at h
  | some ot =>
    obtain ⟨obs⟩ := ot
    cases obs with
    | none => simp [agText?] at h
    | some o =>
      simp only [agText?] at h
      cases hty : (o.type == "ACTION_GROUP") with
      | false => rw [hty] at h; simp at h
      | true =>
        rw [hty] at h
        simp only [if_true] at h
        simp only [Option.some.injEq] at h
        simp [sqlStep, hty, h]

lemma sqlFold (tl : List TraceEvent) :
    ∀ sql0 : Option String,
      (∀ t ∈ tl, agText? t ≠ some none) →
      tl.foldlM sqlStep sql0 =
        .ok (match (agTexts tl).getLast? with
             | some text => extract_sql_query text
             | none => sql0) := by
  induction tl with
  | nil => intro sql0 _; simp [agTexts]
  | cons t rest ih =>
    intro sql0 h
    have hrest : ∀ x ∈ rest, agText? x ≠ some none :=
      fun x hx => h x (List.mem_cons_of_mem _ hx)
    rw [List.foldlM_cons]
    cases hag : agText? t with
    | none =>
      rw [sqlStep_of_agText_none hag, exceptBind_ok, ih _ hrest]
      have hsame : agTexts (t :: rest) = agTexts rest := by
        simp [agTexts, List.filterMap_cons, hag]
      rw [hsame]
    | some o =>
      cases o with
      | none => exact absurd hag (h t (List.mem_cons_self t rest))
      | some text =>
        rw [sqlStep_of_agText_some hag, exceptBind_ok, ih _ hrest]
        have hcons : agTexts (t :: rest) = text :: agTexts rest := by
          simp [agTexts, List.filterMap_cons, hag]
        rw [hcons, List.getLast?_cons]
        cases hl : (agTexts rest).getLast? <;> simp [hl]

lemma kb_eq_findSome (tl : List TraceEvent) :
    extract_source_list_from_kb tl =
      (tl.findSome? kbLookup).map (fun refs => refs.map RetrievedRef.uri) := by
  induction tl with
  | nil => rfl
  | cons t rest ih =>
    obtain ⟨⟨orch⟩⟩ := t
    cases orch with
    | none =>
      simpa [extract_source_list_from_kb, kbLookup, List.findSome?_cons] using ih
    | some ot =>
      obtain ⟨obs⟩ := ot
      cases obs with
      | none =>
        simpa [extract_source_list_from_kb, kbLookup, List.findSome?_cons] using ih
      | some o =>
        cases hkb : o.knowledgeBaseLookupOutput with
        | none =>
          simpa [extract_source_list_from_kb, kbLookup, List.findSome?_cons, hkb]
            using ih
        | some refs =>
          simp [extract_source_list_from_kb, kbLookup, List.findSome?_cons, hkb]

/- ## The main characterization of `get_agent_response` on schema-conformant
streams -/

lemma get_agent_response_eq (resp : AgentResponse) (events : List Event)
    (hc : resp.completion = some events)
    (hdec : ∀ b ∈ chunksOf events, decodeUtf8 b ≠ none)
    (hag : ∀ t ∈ tracesOf events, agText? t ≠ some none) :
    get_agent_response resp =
      match (chunksOf events).getLast?.bind decodeUtf8 with
      | some a => .ok (.pair a (pickSource (tracesOf events)))
      | none => .error (.unboundLocal "chunk_text") := by
  have hsql : sqlLoop (tracesOf events) = .ok (sqlOf (tracesOf events)) := by
    rw [sqlLoop, sqlFold _ none hag, sqlOf]
  unfold get_agent_response
  rw [hc]
  dsimp only
  rw [scanEvents_eq events hdec, exceptBind_ok]
  dsimp only
  rw [hsql, exceptBind_ok]
  cases hlast : (chunksOf events).getLast?.bind decodeUtf8 <;> simp [pickSource, sqlOf]

lemma kbFallback_of_none {tl : List TraceEvent}
    (h : tl.findSome? kbLookup = none) : kbFallback tl = .pyNone := by
  rw [kbFallback, kb_eq_findSome, h]
  rfl

lemma kbFallback_of_some {tl : List TraceEvent} {refs : List RetrievedRef}
    (h : tl.findSome? kbLookup = some refs) :
    kbFallback tl = .list (refs.map RetrievedRef.uri) := by
  rw [kbFallback, kb_eq_findSome, h]
  rfl

lemma pickSource_of_truthy {tl : List TraceEvent} {q : String}
    (h : sqlOf tl = some q) (hq : q ≠ "") : pickSource tl = .str q := by
  unfold pickSource
  rw [h]
  simp [hq]

lemma pickSource_of_falsy {tl : List TraceEvent}
    (h : pyTruthyStr (sqlOf tl) = false) : pickSource tl = kbFallback tl := by
  unfold pickSource
  cases hs : sqlOf tl with
  | none => rfl
  | some q =>
    rw [hs] at h
    simp only [pyTruthyStr, Bool.not_eq_false'] at h
    simp [h]

/- ## Claim theorems -/

/-- C1 (counterexample): a stream in which one collected `ACTION_GROUP`
observation yields the non-empty extraction `SELECT a`, yet a later
`ACTION_GROUP` observation whose text yields no extraction overwrites it, so
the returned provenance is the knowledge-base reference list, not the
query. -/
theorem C1_cex :
    extract_sql_query "SELECT a\nReturned information: x" = some "SELECT a" ∧
    get_agent_response
      ⟨some [chunkEvent "hi",
             traceEvent (agTraceEvent "SELECT a\nReturned information: x"),
             traceEvent (agTraceEvent "no sql here"),
             traceEvent (kbTraceEvent ["s3://b/k"])], "r"⟩ =
      .ok (.pair "hi" (.list ["s3://b/k"])) ∧
    PyVal.list ["s3://b/k"] ≠ PyVal.str "SELECT a" := by
  refine ⟨by decide, by decide, by decide⟩

/-- C1 (amended): it is the LAST collected `ACTION_GROUP` observation that
decides. For every stream (with decodable chunks and schema-conformant
action-group observations) whose last action-group output text yields a
non-empty extraction `q`, `get_agent_response` returns `q` as the
provenance, and any knowledge-base references in this or other traces are
ignored. -/
theorem C1_last_action_group_wins (resp : AgentResponse) (events : List Event)
    (text q a : String)
    (hc : resp.completion = some events)
    (hdec : ∀ b ∈ chunksOf events, decodeUtf8 b ≠ none)
    (hag : ∀ t ∈ tracesOf events, agText? t ≠ some none)
    (hlast : (agTexts (tracesOf events)).getLast? = some text)
    (hext : extract_sql_query text = some q)
    (hq : q ≠ "")
    (ha : (chunksOf events).getLast?.bind decodeUtf8 = some a) :
    get_agent_response resp = .ok (.pair a (.str q)) := by
  have hs : sqlOf (tracesOf events) = some q := by
    unfold sqlOf
    rw [hlast]
    exact hext
  rw [get_agent_response_eq resp events hc hdec hag, ha,
    pickSource_of_truthy hs hq]

/-- C1 (witness): a concrete stream holding both a knowledge-base
observation and, last, an `ACTION_GROUP` observation yielding `SELECT a`;
the query wins. -/
theorem C1_witness :
    get_agent_response
      ⟨some [chunkEvent "hi", traceEvent (kbTraceEvent ["s3://b/k"]),
             traceEvent (agTraceEvent "SELECT a\nReturned information: x")], "r"⟩ =
      .ok (.pair "hi" (.str "SELECT a")) :=
  C1_last_action_group_wins _ _ "SELECT a\nReturned information: x" "SELECT a" "hi"
    rfl (by decide) (by decide) (by decide) (by decide) (by decide) (by decide)

/-- C7 (confirmed): for every stream with the completion wrapper, decodable
chunk payloads and schema-conformant action-group observations, whose LAST
chunk decodes to `a`, the answer component returned by `get_agent_response`
is `a`, regardless of interleaving with trace events. -/
theorem C7_last_chunk_wins (resp : AgentResponse) (events : List Event)
    (a : String)
    (hc : resp.completion = some events)
    (hdec : ∀ b ∈ chunksOf events, decodeUtf8 b ≠ none)
    (hag : ∀ t ∈ tracesOf events, agText? t ≠ some none)
    (ha : (chunksOf events).getLast?.bind decodeUtf8 = some a) :
    ∃ src, get_agent_response resp = .ok (.pair a src) := by
  rw [get_agent_response_eq resp events hc hdec hag, ha]
  exact ⟨_, rfl⟩

/-- C7 (witness): two chunks interleaved with a trace event; the second
chunk's text is the answer. -/
theorem C7_witness :
    ∃ src,
      get_agent_response
        ⟨some [chunkEvent "first", traceEvent (kbTraceEvent ["s3://b/k"]),
               chunkEvent "second"], "r"⟩ =
        .ok (.pair "second" src) :=
  C7_last_chunk_wins _ _ "second" rfl (by decide) (by decide) (by decide)

/-- C10 (confirmed): a stream that has the completion wrapper but no chunk
event leaves `chunk_text` unassigned, and `get_agent_response` fails with
the unhandled `UnboundLocalError` at its final `return`; the interpretation
is total only when at least one chunk event is present. -/
theorem C10_no_chunk_unbound_local (resp : AgentResponse) (events : List Event)
    (hc : resp.completion = some events)
    (hag : ∀ t ∈ tracesOf events, agText? t ≠ some none)
    (hnc : chunksOf events = []) :
    get_agent_response resp = .error (.unboundLocal "chunk_text") := by
  have hdec : ∀ b ∈ chunksOf events, decodeUtf8 b ≠ none := by
    rw [hnc]
    intro b hb
    cases hb
  rw [get_agent_response_eq resp events hc hdec hag, hnc]
  rfl

/-- C10 (witness): a stream consisting of a single knowledge-base trace and
no chunk fails with `UnboundLocalError`. -/
theorem C10_witness :
    get_agent_response ⟨some [traceEvent (kbTraceEvent ["s3://b/k"])], "r"⟩ =
      .error (.unboundLocal "chunk_text") :=
  C10_no_chunk_unbound_local _ _ rfl (by decide) (by decide)

/-- C2 (code bug): when the upstream response lacks the `completion` key,
`get_agent_response` does return the diagnostic string naming the unexpected
response — but as a bare string where every other path returns a pair, so
`lambda_handler`'s two-variable tuple unpacking of it raises `ValueError`
and the request crashes instead of returning the diagnostic answer with
empty provenance. -/
theorem C2_missing_completion_crashes :
    get_agent_response ⟨none, "\x7b'ResponseMetadata': ...\x7d"⟩ =
      .ok (.errStr "No completion found in response: \x7b'ResponseMetadata': ...\x7d") ∧
    lambda_handler storeA ⟨none, "\x7b'ResponseMetadata': ...\x7d"⟩ =
      .error (.valueError "values to unpack") := by
  refine ⟨by decide, by decide⟩

/-- C3 (counterexample): a stream with two knowledge-base observations in
distinct traces; the returned provenance holds only the first observation's
URI, and the second observation's URI — although present in a collected
trace — is missing. -/
theorem C3_cex :
    get_agent_response
      ⟨some [chunkEvent "hi", traceEvent (kbTraceEvent ["s3://a/1"]),
             traceEvent (kbTraceEvent ["s3://b/2"])], "r"⟩ =
      .ok (.pair "hi" (.list ["s3://a/1"])) ∧
    kbLookup (kbTraceEvent ["s3://b/2"]) = some [⟨"s3://b/2"⟩] ∧
    "s3://b/2" ∉ ["s3://a/1"] := by
  refine ⟨by decide, by decide, by decide⟩

/-- C3 (amended): the knowledge-base scan stops at the FIRST collected trace
carrying a knowledge-base-lookup observation and returns exactly that
observation's retrieved-reference URIs, in the order the references appear;
references in any later knowledge-base observation are ignored, and the scan
yields Python `None` when no trace carries one. -/
theorem C3_first_kb_observation_only (tl : List TraceEvent) :
    extract_source_list_from_kb tl =
      (tl.findSome? kbLookup).map (fun refs => refs.map RetrievedRef.uri) :=
  kb_eq_findSome tl

/-- C4 (counterexample): a stream with a chunk and no trace observations at
all: the knowledge-base scan raises nothing and finds nothing, and the
pipeline returns `source` as Python `None` (serialized as JSON `null`), not
as the empty string. -/
theorem C4_cex :
    lambda_handler storeA ⟨some [chunkEvent "hi"], "r"⟩ =
      .ok { answer := "hi", source := none } ∧
    (none : Option String) ≠ some "" := by
  refine ⟨by decide, by decide⟩

/-- C4 (amended): for every stream whose traces yield neither a truthy SQL
extraction nor any knowledge-base-lookup observation, the provenance is
Python `None` and the `source` value returned by the pipeline is `None`
(JSON `null`); the empty string arises only on the exception path of the
knowledge-base scan. -/
theorem C4_provenance_none_yields_null_source (store : Store)
    (resp : AgentResponse) (events : List Event) (a : String)
    (hc : resp.completion = some events)
    (hdec : ∀ b ∈ chunksOf events, decodeUtf8 b ≠ none)
    (hag : ∀ t ∈ tracesOf events, agText? t ≠ some none)
    (ha : (chunksOf events).getLast?.bind decodeUtf8 = some a)
    (hsql : pyTruthyStr (sqlOf (tracesOf events)) = false)
    (hkb : (tracesOf events).findSome? kbLookup = none) :
    lambda_handler store resp = .ok { answer := a, source := none } := by
  have hg : get_agent_response resp = .ok (.pair a .pyNone) := by
    rw [get_agent_response_eq resp events hc hdec hag, ha,
      pickSource_of_falsy hsql, kbFallback_of_none hkb]
  unfold lambda_handler
  rw [hg, exceptBind_ok]

/-- C4 (witness): a stream with one chunk and one trace without any
orchestration observation resolves to a `null` source. -/
theorem C4_witness :
    lambda_handler storeA
      ⟨some [chunkEvent "hi", traceEvent ⟨⟨some ⟨none⟩⟩⟩], "r"⟩ =
      .ok { answer := "hi", source := none } :=
  C4_provenance_none_yields_null_source storeA _ _ "hi" rfl (by decide)
    (by decide) (by decide) (by decide) (by decide)

/- ## Support lemmas: citation resolution, deduplication and rendering -/

lemma collect_forall₂ (store : Store) :
    ∀ {uris : List String} {recs : List (String × String)},
      List.Forall₂ (fun u r => resolveKey store u = .ok (some r)) uris recs →
      collectPairs store uris = .ok recs := by
  intro uris recs h
  induction h with
  | nil => rfl
  | cons hr _ ih =>
    rw [collectPairs, hr, exceptBind_ok, ih, exceptBind_ok]

lemma foldl_ins_eq_dedupAux :
    ∀ (l : List (String × String)) (acc : List (String × String)),
      l.foldl (fun acc x => if x ∈ acc then acc else acc ++ [x]) acc =
        acc ++ dedupFirstAux acc l := by
  intro l
  induction l with
  | nil => intro acc; simp [dedupFirstAux]
  | cons x xs ih =>
    intro acc
    rw [List.foldl_cons, dedupFirstAux]
    by_cases hx : x ∈ acc
    · rw [if_pos hx, if_pos hx, ih]
    · rw [if_neg hx, if_neg hx, ih]
      simp

lemma orderedDictFromKeys_eq_dedupFirst (l : List (String × String)) :
    orderedDictFromKeys l = dedupFirst l := by
  rw [orderedDictFromKeys, dedupFirst, foldl_ins_eq_dedupAux]
  rfl

lemma renderLoop_foldl :
    ∀ (l : List (String × String)) (acc : String) (i : Nat),
      (l.foldl (fun (acc : String × Nat) p =>
        (acc.1 ++ refLine acc.2 p.1 p.2, acc.2 + 1)) (acc, i)).1 =
        acc ++ renderFrom i l := by
  intro l
  induction l with
  | nil => intro acc i; simp [renderFrom]
  | cons p rest ih =>
    intro acc i
    rw [List.foldl_cons, renderFrom, ih, String.append_assoc]

lemma renderLoop_eq_renderFrom (l : List (String × String)) :
    renderLoop l = renderFrom 1 l := by
  rw [renderLoop, renderLoop_foldl]
  exact String.empty_append _

lemma mem_dedupFirstAux :
    ∀ (l seen : List (String × String)) (x : String × String),
      x ∈ dedupFirstAux seen l ↔ x ∈ l ∧ x ∉ seen := by
  intro l
  induction l with
  | nil => intro seen x; simp [dedupFirstAux]
  | cons y ys ih =>
    intro seen x
    rw [dedupFirstAux]
    by_cases hy : y ∈ seen
    · rw [if_pos hy, ih]
      constructor
      · rintro ⟨hmem, hns⟩; exact ⟨List.mem_cons_of_mem _ hmem, hns⟩
      · rintro ⟨hmem, hns⟩
        rcases List.mem_cons.mp hmem with rfl | hmem'
        · exact absurd hy hns
        · exact ⟨hmem', hns⟩
    · rw [if_neg hy]
      constructor
      · intro hmem
        rcases List.mem_cons.mp hmem with rfl | hmem'
        · exact ⟨List.mem_cons_self _ _, hy⟩
        · obtain ⟨h1, h2⟩ := (ih _ _).mp hmem'
          refine ⟨List.mem_cons_of_mem _ h1, fun hc => h2 ?_⟩
          exact List.mem_append_left _ hc
      · rintro ⟨hmem, hns⟩
        rcases List.mem_cons.mp hmem with rfl | hmem'
        · exact List.mem_cons_self _ _
        · by_cases hxy : x = y
          · subst hxy; exact List.mem_cons_self _ _
          · refine List.mem_cons_of_mem _ ((ih _ _).mpr ⟨hmem', ?_⟩)
            intro hc
            rcases List.mem_append.mp hc with hc1 | hc2
            · exact hns hc1
            · simp at hc2; exact hxy hc2

lemma nodup_dedupFirstAux :
    ∀ (l seen : List (String × String)), (dedupFirstAux seen l).Nodup := by
  intro l
  induction l with
  | nil => intro seen; simp [dedupFirstAux]
  | cons y ys ih =>
    intro seen
    rw [dedupFirstAux]
    by_cases hy : y ∈ seen
    · rw [if_pos hy]; exact ih seen
    · rw [if_neg hy]
      refine List.Nodup.cons ?_ (ih _)
      intro hc
      obtain ⟨_, h2⟩ := (mem_dedupFirstAux _ _ _).mp hc
      exact h2 (List.mem_append_right _ (List.mem_singleton_self _))

lemma sublist_dedupFirstAux :
    ∀ (l seen : List (String × String)), (dedupFirstAux seen l).Sublist l := by
  intro l
  induction l with
  | nil => intro seen; simp [dedupFirstAux]
  | cons y ys ih =>
    intro seen
    rw [dedupFirstAux]
    by_cases hy : y ∈ seen
    · rw [if_pos hy]; exact (ih seen).cons y
    · rw [if_neg hy]; exact (ih _).cons₂ y

lemma collectPairs_cons (store : Store) (u : String) (rest : List String) :
    collectPairs store (u :: rest) =
      resolveKey store u >>= fun p =>
        collectPairs store rest >>= fun ps =>
          (match p with
           | some pair => .ok (pair :: ps)
           | none => .ok ps) := rfl

lemma collectPairs_append (store : Store) :
    ∀ xs ys, collectPairs store (xs ++ ys) =
      collectPairs store xs >>= fun a =>
        (collectPairs store ys >>= fun b => .ok (a ++ b)) := by
  intro xs
  induction xs with
  | nil =>
    intro ys
    rw [List.nil_append]
    cases h : collectPairs store ys <;> simp [collectPairs, h]
  | cons u rest ih =>
    intro ys
    rw [List.cons_append, collectPairs_cons, collectPairs_cons, ih ys]
    cases hr : resolveKey store u with
    | error e => simp
    | ok p =>
      rw [exceptBind_ok, exceptBind_ok]
      cases hrest : collectPairs store rest with
      | error e => simp
      | ok a =>
        rw [exceptBind_ok, exceptBind_ok]
        cases hys : collectPairs store ys with
        | error e => cases p <;> simp
        | ok b => cases p <;> simp

/-- C6 (confirmed): with every key resolving to its citation record, the
citation list builder returns the rendering — `"{i}. [{title}]({link})\n\n"`
for `i` starting at 1, concatenated — of the stable deduplication of the
records: duplicates by exact (title, link) equality are dropped, each first
occurrence is kept in first-seen order (the result has no duplicates, has
exactly the input's members, and is a subsequence of the input), and the
empty key sequence yields the empty string. -/
theorem C6_dedup_render (store : Store) (uris : List String)
    (recs : List (String × String))
    (hres : List.Forall₂ (fun u r => resolveKey store u = .ok (some r)) uris recs) :
    source_link store uris = .ok (renderFrom 1 (dedupFirst recs)) ∧
    (dedupFirst recs).Nodup ∧
    (∀ x, x ∈ dedupFirst recs ↔ x ∈ recs) ∧
    (dedupFirst recs).Sublist recs ∧
    source_link store [] = .ok "" := by
  refine ⟨?_, nodup_dedupFirstAux recs [], ?_, sublist_dedupFirstAux recs [], rfl⟩
  · unfold source_link
    rw [collect_forall₂ store hres, exceptBind_ok,
      orderedDictFromKeys_eq_dedupFirst, renderLoop_eq_renderFrom]
  · intro x
    rw [dedupFirst, mem_dedupFirstAux]
    simp

/-- C6 (witness): the three keys resolving to records A, A-duplicate and B
render as the deduplicated two-line list. -/
theorem C6_witness :
    source_link storeA ["s3://b1/k1", "s3://b1/k2", "s3://b1/k1"] =
      .ok (renderFrom 1 (dedupFirst [("A", "L1"), ("B", "L2"), ("A", "L1")])) :=
  (C6_dedup_render storeA _ _
    (.cons (by decide) (.cons (by decide) (.cons (by decide) .nil)))).1

/-- C8 (confirmed): a key whose stored object is not valid UTF-8 is silently
skipped: the batch result over `pre ++ [bad] ++ post` equals the result over
`pre ++ post`, so the skipped object contributes no entry and leaves the
order and numbering of the remaining entries unchanged. -/
theorem C8_invalid_utf8_skipped (store : Store) (pre post : List String)
    (bad bkt obj : String)
    (hb : parseUri bad = .ok (bkt, obj))
    (hs : store bkt obj = .invalidUtf8) :
    source_link store (pre ++ bad :: post) = source_link store (pre ++ post) := by
  have hskip : resolveKey store bad = .ok none := by
    unfold resolveKey
    rw [hb, exceptBind_ok]
    dsimp only
    rw [hs]
  have hmid : collectPairs store (bad :: post) = collectPairs store post := by
    rw [collectPairs_cons, hskip, exceptBind_ok]
    cases h : collectPairs store post <;> simp
  unfold source_link
  rw [collectPairs_append, collectPairs_append, hmid]

/-- C8 (witness): dropping the non-UTF-8 object `s3://b1/bad` leaves the
batch over the two well-formed keys unchanged. -/
theorem C8_witness :
    source_link storeA ["s3://b1/k1", "s3://b1/bad", "s3://b1/k2"] =
      source_link storeA ["s3://b1/k1", "s3://b1/k2"] :=
  C8_invalid_utf8_skipped storeA ["s3://b1/k1"] ["s3://b1/k2"]
    "s3://b1/bad" "b1" "bad" (by decide) (by decide)

/-- C9 (confirmed): a stored citation object that decodes and parses but
lacks `Url` or `Topic` raises a `KeyError` that no handler in the pipeline
catches: `source_link` fails on the whole batch, and `lambda_handler`
propagates the same error out of the request. -/
theorem C9_missing_field_propagates (store : Store) (pre post : List String)
    (bad bkt obj : String) (fields ps : List (String × String))
    (hpre : collectPairs store pre = .ok ps)
    (hb : parseUri bad = .ok (bkt, obj))
    (hs : store bkt obj = .record fields)
    (hmiss : fields.lookup "Url" = none ∨ fields.lookup "Topic" = none) :
    ∃ k, source_link store (pre ++ bad :: post) = .error (.keyError k) ∧
      ∀ (resp : AgentResponse) (a : String),
        get_agent_response resp = .ok (.pair a (.list (pre ++ bad :: post))) →
        lambda_handler store resp = .error (.keyError k) := by
  have hres : ∃ k, resolveKey store bad = .error (.keyError k) := by
    unfold resolveKey
    rw [hb, exceptBind_ok]
    dsimp only
    rw [hs]
    dsimp only
    cases hu : fields.lookup "Url" with
    | none => exact ⟨"Url", rfl⟩
    | some url =>
      rcases hmiss with h | h
      · rw [hu] at h; cases h
      · rw [h]; exact ⟨"Topic", rfl⟩
  obtain ⟨k, hk⟩ := hres
  have hsl : source_link store (pre ++ bad :: post) = .error (.keyError k) := by
    unfold source_link
    rw [collectPairs_append, hpre, exceptBind_ok, collectPairs_cons, hk]
    rfl
  refine ⟨k, hsl, ?_⟩
  intro resp a hresp
  unfold lambda_handler
  rw [hresp, exceptBind_ok]
  dsimp only
  rw [hsl]
  rfl

/-- C9 (witness): the record at `s3://b1/nofields` has neither `Url` nor
`Topic`; the batch aborts with a `KeyError` that `lambda_handler`
propagates. -/
theorem C9_witness :
    ∃ k, source_link storeA ["s3://b1/k1", "s3://b1/nofields"] =
        .error (.keyError k) ∧
      ∀ (resp : AgentResponse) (a : String),
        get_agent_response resp =
          .ok (.pair a (.list ["s3://b1/k1", "s3://b1/nofields"])) →
        lambda_handler storeA resp = .error (.keyError k) :=
  C9_missing_field_propagates storeA ["s3://b1/k1"] [] "s3://b1/nofields"
    "b1" "nofields" [("Other", "x")] [("A", "L1")]
    (by decide) (by decide) (by decide) (Or.inl (by decide))

/- ## Support lemmas: the SQL extractor's regex semantics -/

lemma findCapture_none_iff :
    ∀ cs : List Char, findCapture cs = none ↔
      (∀ k, termHere (List.drop k cs) = false) := by
  intro cs
  induction cs with
  | nil =>
    constructor
    · intro _ k
      rw [List.drop_nil]
      rfl
    · intro _
      rfl
  | cons c rest ih =>
    cases ht : termHere (c :: rest) with
    | true =>
      rw [findCapture, if_pos ht]
      constructor
      · intro h; cases h
      · intro h
        have h0 := h 0
        rw [List.drop_zero, ht] at h0
        cases h0
    | false =>
      rw [findCapture, if_neg (by simp [ht])]
      constructor
      · intro h k
        cases k with
        | zero => rw [List.drop_zero]; exact ht
        | succ k' =>
          rw [List.drop_succ_cons]
          exact (ih.mp (Option.map_eq_none'.mp h)) k'
      · intro h
        rw [Option.map_eq_none']
        refine ih.mpr (fun k => ?_)
        have hk := h (k + 1)
        rwa [List.drop_succ_cons] at hk

lemma findCapture_drop_none {cs : List Char} (h : findCapture cs = none)
    (k : Nat) : findCapture (List.drop k cs) = none := by
  rw [findCapture_none_iff] at h ⊢
  intro m
  rw [List.drop_drop]
  exact h (k + m)

lemma firstTermIdx_spec :
    ∀ (cs : List Char) (j : Nat), firstTermIdx cs = some j ↔
      (termHere (List.drop j cs) = true ∧
       ∀ i, i < j → termHere (List.drop i cs) = false) := by
  intro cs
  induction cs with
  | nil =>
    intro j
    constructor
    · intro h
      rw [firstTermIdx] at h
      cases h
    · rintro ⟨h1, _⟩
      rw [List.drop_nil] at h1
      cases h1
  | cons c rest ih =>
    intro j
    rw [firstTermIdx]
    cases ht : termHere (c :: rest) with
    | true =>
      rw [if_pos rfl]
      constructor
      · intro h
        injection h with h
        subst h
        refine ⟨by rw [List.drop_zero]; exact ht, ?_⟩
        intro i hi
        omega
      · rintro ⟨h1, h2⟩
        by_cases hj : j = 0
        · subst hj; rfl
        · have h0 := h2 0 (Nat.pos_of_ne_zero hj)
          rw [List.drop_zero, ht] at h0
          cases h0
    | false =>
      rw [if_neg (by simp [ht])]
      constructor
      · intro h
        obtain ⟨j', hj', rfl⟩ := Option.map_eq_some'.mp h
        obtain ⟨h1, h2⟩ := (ih j').mp hj'
        refine ⟨by rwa [List.drop_succ_cons], ?_⟩
        intro i hi
        cases i with
        | zero => rw [List.drop_zero]; exact ht
        | succ i' =>
          rw [List.drop_succ_cons]
          exact h2 i' (by omega)
      · rintro ⟨h1, h2⟩
        cases j with
        | zero =>
          rw [List.drop_zero, ht] at h1
          cases h1
        | succ j' =>
          rw [List.drop_succ_cons] at h1
          have hrest : firstTermIdx rest = some j' := by
            refine (ih j').mpr ⟨h1, ?_⟩
            intro i hi
            have hsucc := h2 (i + 1) (by omega)
            rwa [List.drop_succ_cons] at hsucc
          rw [hrest]
          rfl

lemma findCapture_eq_firstTermIdx :
    ∀ cs : List Char,
      findCapture cs = (firstTermIdx cs).map (fun j => List.take j cs) := by
  intro cs
  induction cs with
  | nil => rfl
  | cons c rest ih =>
    rw [findCapture, firstTermIdx]
    cases ht : termHere (c :: rest) with
    | true => rw [if_pos rfl, if_pos rfl]; rfl
    | false =>
      rw [if_neg (by simp [ht]), if_neg (by simp [ht]), ih]
      cases hf : firstTermIdx rest <;> simp [List.take_succ_cons]

lemma firstSelect_none_iff :
    ∀ cs : List Char, firstSelect cs = none ↔
      (∀ k, startsWithCI selectLit (List.drop k cs) = false) := by
  intro cs
  induction cs with
  | nil =>
    constructor
    · intro _ k
      rw [List.drop_nil]
      rfl
    · intro _
      rfl
  | cons c rest ih =>
    rw [firstSelect]
    cases hsw : startsWithCI selectLit (c :: rest) with
    | true =>
      rw [if_pos rfl]
      constructor
      · intro h; cases h
      · intro h
        have h0 := h 0
        rw [List.drop_zero, hsw] at h0
        cases h0
    | false =>
      rw [if_neg (by simp [hsw])]
      constructor
      · intro h k
        cases k with
        | zero => rw [List.drop_zero]; exact hsw
        | succ k' =>
          rw [List.drop_succ_cons]
          exact (ih.mp h) k'
      · intro h
        refine ih.mpr (fun k => ?_)
        have hk := h (k + 1)
        rwa [List.drop_succ_cons] at hk

lemma core_none :
    ∀ u : List Char,
      (∀ k, startsWithCI selectLit (List.drop k u) = true →
        findCapture (List.drop 6 (List.drop k u)) = none) →
      extract_sql_query_core u = none := by
  intro u
  induction u with
  | nil => intro _; rfl
  | cons c rest ih =>
    intro h
    have hrest : ∀ k, startsWithCI selectLit (List.drop k rest) = true →
        findCapture (List.drop 6 (List.drop k rest)) = none := by
      intro k hk
      have hk1 := h (k + 1) (by rwa [List.drop_succ_cons])
      rwa [List.drop_succ_cons] at hk1
    rw [extract_sql_query_core]
    cases hsw : startsWithCI selectLit (c :: rest) with
    | false =>
      rw [if_neg (by simp [hsw])]
      exact ih hrest
    | true =>
      rw [if_pos rfl]
      have h0 := h 0 (by rwa [List.drop_zero])
      rw [List.drop_zero] at h0
      rw [h0]
      exact ih hrest

lemma core_eq :
    ∀ cs : List Char,
      extract_sql_query_core cs =
        (firstSelect cs).bind (fun suf =>
          (findCapture (List.drop 6 suf)).map (fun cap => List.take 6 suf ++ cap)) := by
  intro cs
  induction cs with
  | nil => rfl
  | cons c rest ih =>
    rw [extract_sql_query_core, firstSelect]
    cases hsw : startsWithCI selectLit (c :: rest) with
    | false =>
      rw [if_neg (by simp [hsw]), if_neg (by simp [hsw])]
      exact ih
    | true =>
      rw [if_pos rfl, if_pos rfl]
      cases hfc : findCapture (List.drop 6 (c :: rest)) with
      | some cap =>
        simp only [Option.some_bind]
        rw [hfc]
        rfl
      | none =>
        have hrest : ∀ k, startsWithCI selectLit (List.drop k rest) = true →
            findCapture (List.drop 6 (List.drop k rest)) = none := by
          intro k _
          have h2 := findCapture_drop_none hfc (k + 1)
          rw [List.drop_drop] at h2
          have e : List.drop 6 (List.drop k rest) =
              List.drop (6 + (k + 1)) (c :: rest) := by
            have e1 : List.drop k rest = List.drop (k + 1) (c :: rest) :=
              List.drop_succ_cons.symm
            rw [e1, List.drop_drop]
            congr 1
            omega
          rw [e]
          exact h2
        simp only [hfc, Option.map_none', Option.some_bind]
        exact core_none rest hrest

/-- C5 (counterexample): `SELECT` occurs in `"SELECT 1"` and in
`"SELECT a\nmore text"`, and the phrase `Returned information` occurs in
neither, so under the claim the spans would extend to end-of-text; yet the
extractor returns `None` on both, because the lookahead demands a literal
newline before its end-of-text alternative. -/
theorem C5_cex :
    extract_sql_query "SELECT 1" = none ∧
    startsWithCI selectLit "SELECT 1".toList = true ∧
    extract_sql_query "SELECT a\nmore text" = none ∧
    startsWithCI selectLit "SELECT a\nmore text".toList = true := by
  refine ⟨by decide, by decide, by decide, by decide⟩

/-- C5 (amended): the extractor returns the trimmed span running from the
first case-insensitive occurrence of `SELECT` up to (excluding) the EARLIEST
LATER NEWLINE that is followed by optional whitespace and then either the
phrase `Returned information` or the end of the text; it returns `None` when
`SELECT` does not occur at all, and also when no such terminating newline
exists after the occurrence — in particular when `SELECT` is not followed by
any newline, even though `SELECT` appears. Stated as: (1) the extractor is
the composition of first-`SELECT` search, shortest-terminator capture and
trimming; (2) the search fails exactly when no suffix starts with `SELECT`;
(3,4) the capture fails exactly when no suffix satisfies the lookahead, and
otherwise takes exactly up to the least lookahead position; (5) that least
position is characterized order-theoretically. -/
theorem C5_extractor_characterization :
    (∀ s : String, extract_sql_query s =
       (firstSelect s.toList).bind (fun suf =>
         (findCapture (List.drop 6 suf)).map (fun cap =>
           String.mk (pyStrip (List.take 6 suf ++ cap))))) ∧
    (∀ cs, firstSelect cs = none ↔
       ∀ k, startsWithCI selectLit (List.drop k cs) = false) ∧
    (∀ cs, findCapture cs = none ↔ ∀ k, termHere (List.drop k cs) = false) ∧
    (∀ cs, findCapture cs = (firstTermIdx cs).map (fun j => List.take j cs)) ∧
    (∀ cs j, firstTermIdx cs = some j ↔
       (termHere (List.drop j cs) = true ∧
        ∀ i, i < j → termHere (List.drop i cs) = false)) := by
  refine ⟨?_, firstSelect_none_iff, findCapture_none_iff,
    findCapture_eq_firstTermIdx, firstTermIdx_spec⟩
  intro s
  unfold extract_sql_query
  rw [core_eq]
  cases firstSelect s.toList with
  | none => rfl
  | some suf =>
    simp only [Option.some_bind]
    cases findCapture (List.drop 6 suf) <;> rfl
